import Mathlib

/-!
Verification of the goal-aggregation, date-window, reporting and leaderboard
logic of the step-challenge web application (source: src/app/app.py).

The embedding models:
* Python `datetime.date` values as `Date` records (year, month, day) with the
  lexicographic order Python uses, and as proleptic-Gregorian ordinals
  (`toOrdinal`, matching CPython's `date.toordinal`) where the code does
  date arithmetic with `timedelta`;
* the SQL store of `Step` rows as a list of `StepRec` in insertion order
  (`.first()` = first list match, inserts append);
* CPython's binary64 floating-point division/multiplication, which the
  percent computations use, by an exact integer significand/exponent model
  with round-to-nearest, ties-to-even (`roundDivN`, `mul100`);
* the Flask handlers `report`, `dashboard` and `leaderboard` as pure
  functions of the parsed request data, the reference date and the store.
-/

/-! ## Calendar model (Python `datetime` / `calendar`) -/

/-- Gregorian leap-year test, as in Python's `calendar.isleap`. -/
def isLeapYear (y : ℕ) : Bool := decide (y % 4 = 0 ∧ (¬ y % 100 = 0 ∨ y % 400 = 0))

/-- Number of days of month `m` of year `y`, as returned by
`calendar.monthrange(y, m)[1]` (used at src/app/app.py line 246). -/
def daysInMonth (y m : ℕ) : ℕ :=
  if m = 2 then (if isLeapYear y then 29 else 28)
  else if m = 4 ∨ m = 6 ∨ m = 9 ∨ m = 11 then 30
  else 31

/-- Days before January 1 of year `y` in the proleptic Gregorian calendar,
as in CPython's `datetime._days_before_year`. -/
def daysBeforeYear (y : ℕ) : ℕ :=
  (y - 1) * 365 + (y - 1) / 4 - (y - 1) / 100 + (y - 1) / 400

/-- Days of year `y` strictly before month `m`, as in CPython's
`datetime._days_before_month`. -/
def daysBeforeMonth (y : ℕ) : ℕ → ℕ
  | 0 => 0
  | 1 => 0
  | m + 2 => daysBeforeMonth y (m + 1) + daysInMonth y (m + 1)

/-- A calendar date (`datetime.date`): year, month, day. -/
structure Date where
  year : ℕ
  month : ℕ
  day : ℕ
deriving DecidableEq, Repr

/-- Python's `date.toordinal()` (CPython `_ymd2ord`): day 1 is 0001-01-01. -/
def toOrdinal (d : Date) : ℕ := daysBeforeYear d.year + daysBeforeMonth d.year d.month + d.day

/-- Python's `date.weekday()` expressed on ordinals: Monday = 0.
Ordinal 1 (0001-01-01) is a Monday. -/
def weekdayOrd (o : ℕ) : ℕ := (o + 6) % 7

/-- Strict order on dates; for valid dates this is exactly Python's
`date.__lt__` (lexicographic on year, month, day). -/
def Date.lt (a b : Date) : Prop :=
  a.year < b.year ∨ (a.year = b.year ∧ (a.month < b.month ∨ (a.month = b.month ∧ a.day < b.day)))

instance (a b : Date) : Decidable (Date.lt a b) :=
  inferInstanceAs (Decidable (_ ∨ _))

/-- Non-strict order on dates (Python's `date.__le__`). -/
def Date.le (a b : Date) : Prop := Date.lt a b ∨ a = b

instance (a b : Date) : Decidable (Date.le a b) :=
  inferInstanceAs (Decidable (_ ∨ _))

/-- `date(y, 9, 1)`: start of the fixed September reporting period
(src/app/app.py lines 90, 203). -/
def september_start (y : ℕ) : Date := ⟨y, 9, 1⟩

/-- `date(y, 9, 30)`: end of the fixed September reporting period
(src/app/app.py lines 91, 204). -/
def september_end (y : ℕ) : Date := ⟨y, 9, 30⟩

/-! ## Step store and the report operation (src/app/app.py lines 197-239) -/

/-- One row of the `Step` table: owning user id, date, submitted count.
The count is an `ℤ` because `int(request.form["steps"])` accepts any
integer, including negative ones. -/
structure StepRec where
  user_id : ℕ
  date : Date
  steps : ℤ
deriving DecidableEq, Repr

/-- The `Step` table, in row-insertion order. -/
abbrev Store := List StepRec

/-- The filter `Step.query.filter_by(user_id=uid, date=d.isoformat())` of
src/app/app.py lines 219-221 applied to one row. -/
def keyMatch (uid : ℕ) (d : Date) (r : StepRec) : Bool :=
  decide (r.user_id = uid ∧ r.date = d)

/-- All rows of the store for the (user, date) pair. -/
def recordsFor (store : Store) (uid : ℕ) (d : Date) : Store :=
  store.filter (keyMatch uid d)

/-- The invariant "at most one StepRecord per (user, date) pair". -/
def atMostOnePerKey (store : Store) : Prop :=
  ∀ uid d, (recordsFor store uid d).length ≤ 1

/-- Set `existing.steps = step_count` on the first row matching the pair
(src/app/app.py lines 223-224; `.first()` returns the first match). -/
def updateFirst (store : Store) (uid : ℕ) (d : Date) (n : ℤ) : Store :=
  match store with
  | [] => []
  | r :: rest =>
      if keyMatch uid d r then { r with steps := n } :: rest
      else r :: updateFirst rest uid d n

/-- The check-then-write sequence of src/app/app.py lines 218-232: if a row
for (user, date) exists, overwrite its count, else append a new row. -/
def upsertStep (store : Store) (uid : ℕ) (d : Date) (n : ℤ) : Store :=
  match store.find? (keyMatch uid d) with
  | some _ => updateFirst store uid d n
  | none => store ++ [⟨uid, d, n⟩]

/-- Outcome of a POST to `/report`. -/
inductive ReportResult where
  | redirect
  | badRequest (msg : String)
deriving DecidableEq, Repr

/-- Message of src/app/app.py line 214. -/
def futureMsg : String := "Cannot report steps for the future."

/-- Message of src/app/app.py line 216. -/
def outsideMsg : String := "Can only report steps for September."

/-- Message of src/app/app.py line 237 (the `except ValueError` handler,
reached when either `int(request.form["steps"])` or
`datetime.fromisoformat(...)` raises). -/
def invalidStepsMsg : String := "Invalid number of steps"

/-- The POST branch of the `report` handler (src/app/app.py lines 206-237).
`stepsOpt` is the result of `int(request.form["steps"])` (`none` = raised
`ValueError`); `dateOpt` is the result of parsing the date field (`none` =
raised `ValueError`; an absent field defaults to today's ISO string, which
parses to `today`). Returns the HTTP outcome and the store afterwards. -/
def reportPost (uid : ℕ) (today : Date) (stepsOpt : Option ℤ) (dateOpt : Option Date)
    (store : Store) : ReportResult × Store :=
  match stepsOpt with
  | none => (.badRequest invalidStepsMsg, store)
  | some n =>
    match dateOpt with
    | none => (.badRequest invalidStepsMsg, store)
    | some d =>
      if Date.lt today d then (.badRequest futureMsg, store)
      else if Date.lt d (september_start today.year) ∨ Date.lt (september_end today.year) d then
        (.badRequest outsideMsg, store)
      else (.redirect, upsertStep store uid d n)

/-! ## Binary64 floating-point model

The percent computations of src/app/app.py (lines 137-139, 264, 274, 283) are
of the form `min(int(sum / goal * 100), 100)`, evaluated with CPython floats:
IEEE-754 binary64, round to nearest, ties to even.  `sum / goal` is the
correctly rounded double of the exact quotient, `* 100` rounds the exact
product of that double with 100 (100 is exactly representable), and `int`
truncates toward zero.  The model below computes these roundings exactly over
ℕ/ℤ, representing a non-negative double as a significand/exponent pair.
Exponent over/underflow is not modelled; it is unreachable for the magnitudes
the application can produce. -/

/-- Fuel-driven base-2 logarithm (so that the kernel can evaluate it);
`log2fuel f n = ⌊log2 n⌋` for `1 ≤ n ≤ f`, and `0` for `n ≤ 1`. -/
def log2fuel : ℕ → ℕ → ℕ
  | 0, _ => 0
  | fuel + 1, n => if n ≤ 1 then 0 else log2fuel fuel (n / 2) + 1

/-- `⌊log2 n⌋` for `n ≥ 1` (kernel-evaluable version of `Nat.log2`). -/
def natLog2F (n : ℕ) : ℕ := log2fuel n n

/-- Decides `2 ^ x * b ≤ a` for an integer exponent `x`, by cross
multiplication (so only ℕ arithmetic is involved). -/
def pow2timesLe (x : ℤ) (b a : ℕ) : Bool :=
  if 0 ≤ x then decide (2 ^ x.toNat * b ≤ a) else decide (b ≤ 2 ^ (-x).toNat * a)

/-- `⌊log2 (a / b)⌋` for `a, b ≥ 1`, as an integer: the bit lengths of `a`
and `b` determine it up to one, and a cross-multiplied comparison decides. -/
def flog2 (a b : ℕ) : ℤ :=
  if pow2timesLe ((natLog2F a : ℤ) - (natLog2F b : ℤ)) b a
  then (natLog2F a : ℤ) - (natLog2F b : ℤ)
  else (natLog2F a : ℤ) - (natLog2F b : ℤ) - 1

/-- Round the rational `A / B` (with `B ≥ 1`) to the nearest integer,
ties to even. -/
def rnheDiv (A B : ℕ) : ℕ :=
  if 2 * (A % B) < B then A / B
  else if B < 2 * (A % B) then A / B + 1
  else if (A / B) % 2 = 0 then A / B else A / B + 1

/-- Numerator/denominator of `(a / b) * 2 ^ k` for an integer `k`. -/
def scaledNumDen (a b : ℕ) (k : ℤ) : ℕ × ℕ :=
  if 0 ≤ k then (a * 2 ^ k.toNat, b) else (a, b * 2 ^ (-k).toNat)

/-- A non-negative binary64 value: `m * 2 ^ (e - 52)`.  `m = 0` encodes zero;
otherwise `2 ^ 52 ≤ m ≤ 2 ^ 53` after rounding. -/
structure PFloat where
  m : ℕ
  e : ℤ
deriving DecidableEq, Repr

/-- Correctly rounded double of the quotient `a / b` (`b ≥ 1`), i.e. Python's
`a / b` for non-negative ints: scale `a / b` into `[2^52, 2^53)` and round
half-to-even. -/
def roundDivN (a b : ℕ) : PFloat :=
  if a = 0 then ⟨0, 0⟩
  else
    ⟨rnheDiv (scaledNumDen a b (52 - flog2 a b)).1 (scaledNumDen a b (52 - flog2 a b)).2,
      flog2 a b⟩

/-- Correctly rounded double of `value f * 100`, i.e. Python's `f * 100`
(100 is exactly representable, so the only rounding is of the product). -/
def mul100 (f : PFloat) : PFloat :=
  if f.m = 0 then ⟨0, 0⟩
  else
    ⟨rnheDiv (scaledNumDen (100 * f.m) 1 (52 - flog2 (100 * f.m) 1)).1
        (scaledNumDen (100 * f.m) 1 (52 - flog2 (100 * f.m) 1)).2,
      flog2 (100 * f.m) 1 + f.e - 52⟩

/-- Python's `int()` truncation of the non-negative double `f`. -/
def truncF (f : PFloat) : ℕ :=
  if 52 ≤ f.e then f.m * 2 ^ (f.e - 52).toNat else f.m / 2 ^ ((52 : ℤ) - f.e).toNat

/-- `min(int(s / g * 100), 100)` for a non-negative integer sum `s` and a
positive integer goal `g`, with binary64 arithmetic. -/
def pctCore (s g : ℕ) : ℕ := min (truncF (mul100 (roundDivN s g))) 100

/-- The percent-of-goal computation shared by the dashboard
(src/app/app.py lines 137-139) and the leaderboard (lines 264, 274, 283):
`min(int(s / g * 100), 100)`.  A negative sum `s` (reachable, since negative
step counts are accepted) divides and truncates symmetrically. -/
def computedPercent (s : ℤ) (g : ℕ) : ℤ :=
  if 0 ≤ s then (pctCore s.toNat g : ℤ)
  else min (-(truncF (mul100 (roundDivN (-s).toNat g)) : ℤ)) 100

/-- The spec's formula for `percentOfGoal(sum, goal)`, taken verbatim from
its words: `floor(min(sum / goal, 1) * 100)` in exact arithmetic. -/
def specPercentOfGoal (s : ℤ) (g : ℕ) : ℤ := ⌊(min ((s : ℚ) / (g : ℚ)) 1) * 100⌋

/-- Dashboard `daily_percent` (src/app/app.py line 137). -/
def daily_percent (s : ℤ) : ℤ := computedPercent s 15000

/-- Dashboard `weekly_percent` (src/app/app.py line 138). -/
def weekly_percent (s : ℤ) : ℤ := computedPercent s 105000

/-- Dashboard `monthly_percent` (src/app/app.py line 139); the divisor is the
fixed literal `450000`. -/
def monthly_percent (s : ℤ) : ℤ := computedPercent s 450000

/-- The fixed constant `450000` the dashboard divides the monthly sum by
(src/app/app.py line 139). -/
def dashboardMonthlyGoal : ℕ := 450000

/-- Leaderboard `daily_goal` (src/app/app.py line 245). -/
def daily_goal : ℕ := 15000

/-- Leaderboard `weekly_goal = daily_goal * 7` (src/app/app.py line 247). -/
def weekly_goal : ℕ := daily_goal * 7

/-- Leaderboard `monthly_goal = daily_goal * days_in_month` where
`days_in_month = calendar.monthrange(today.year, today.month)[1]`
(src/app/app.py lines 246-248). -/
def monthly_goal (today : Date) : ℕ := daily_goal * daysInMonth today.year today.month

/-! ## Dashboard week window (src/app/app.py lines 88-107)

The week-navigation logic only adds and subtracts day counts and compares
dates, so it is modelled on `toOrdinal` images, where Python's `timedelta`
arithmetic is ordinary integer arithmetic and the date order is the integer
order. -/

/-- Lines 93-107 of src/app/app.py on ordinals: resolve the requested (or
default) week start, clamp it into September, and compute the week end.
`requested` is the parsed `week_start` query parameter. -/
def resolveWeek (todayO septStartO septEndO : ℕ) (requested : Option ℕ) : ℕ × ℕ :=
  let ws0 := match requested with
    | some w => w
    | none => max (todayO - weekdayOrd todayO) septStartO
  let ws1 := if ws0 < septStartO then septStartO
             else if septEndO < ws0 then septEndO
             else ws0
  (ws1, min (ws1 + 6) septEndO)

/-- The dashboard's resolved `(week_start, week_end)` window, as ordinals. -/
def dashboardWindow (today : Date) (requested : Option ℕ) : ℕ × ℕ :=
  resolveWeek (toOrdinal today) (toOrdinal (september_start today.year))
    (toOrdinal (september_end today.year)) requested

/-- An uncaught Python exception. -/
inductive PyError where
  | valueError
deriving DecidableEq, Repr

/-- The date-handling part of the `dashboard` handler (src/app/app.py lines
88-107).  The `week_start` query parameter is `none` when absent, and
`some none` when present but not parseable as `%Y-%m-%d` — in that case
`datetime.strptime` on line 96 raises `ValueError`, and no `try/except`
surrounds it, so the exception escapes the handler. -/
def dashboardDates (today : Date) (weekStartParam : Option (Option ℕ)) :
    Except PyError (ℕ × ℕ) :=
  match weekStartParam with
  | none => .ok (dashboardWindow today none)
  | some none => .error .valueError
  | some (some w) => .ok (dashboardWindow today (some w))

/-! ## Leaderboard (src/app/app.py lines 242-308) -/

/-- A registered user, in `User.query.all()` enumeration order. -/
structure LUser where
  id : ℕ
  username : String
deriving DecidableEq, Repr

/-- One leaderboard tuple
`(username, today_steps, daily_percent, week_steps, weekly_percent,
month_steps, monthly_percent)` (src/app/app.py lines 285-295). -/
structure Entry where
  username : String
  todaySteps : ℤ
  dailyPercent : ℤ
  weekSteps : ℤ
  weeklyPercent : ℤ
  monthSteps : ℤ
  monthlyPercent : ℤ
deriving DecidableEq, Repr

/-- `db.session.query(func.sum(Step.steps)).filter(...)...scalar() or 0`:
the sum of the step counts of the rows matching the filter. -/
def sumSteps (store : Store) (p : StepRec → Bool) : ℤ :=
  ((store.filter p).map (fun r => r.steps)).sum

/-- `start_week = today - timedelta(days=6)` (src/app/app.py line 251), for a
valid date: borrow from the previous month when the day is 6 or less. -/
def start_week (today : Date) : Date :=
  if 6 < today.day then ⟨today.year, today.month, today.day - 6⟩
  else if today.month = 1 then ⟨today.year - 1, 12, 25 + today.day⟩
  else ⟨today.year, today.month - 1, daysInMonth today.year (today.month - 1) - 6 + today.day⟩

/-- One user's aggregates (src/app/app.py lines 256-295).  The monthly filter
models `Step.date.like(f"{month_prefix}%")`: a stored ISO date string starts
with `today.strftime("%Y-%m")` exactly when its year and month equal
today's. -/
def userEntry (store : Store) (today : Date) (u : LUser) : Entry :=
  let todaySteps := sumSteps store (fun r => decide (r.user_id = u.id ∧ r.date = today))
  let weekSteps := sumSteps store (fun r => decide (r.user_id = u.id) &&
    decide (Date.le (start_week today) r.date) && decide (Date.le r.date today))
  let monthSteps := sumSteps store (fun r => decide (r.user_id = u.id ∧
    r.date.year = today.year ∧ r.date.month = today.month))
  { username := u.username
    todaySteps := todaySteps
    dailyPercent := computedPercent todaySteps daily_goal
    weekSteps := weekSteps
    weeklyPercent := computedPercent weekSteps weekly_goal
    monthSteps := monthSteps
    monthlyPercent := computedPercent monthSteps (monthly_goal today) }

/-- The comparator of `leaderboard_data.sort(key=lambda x: x[5],
reverse=True)` (src/app/app.py line 297): descending by monthly step sum. -/
def entryGe (a b : Entry) : Prop := b.monthSteps ≤ a.monthSteps

instance : DecidableRel entryGe :=
  fun a b => inferInstanceAs (Decidable (b.monthSteps ≤ a.monthSteps))

instance : IsTotal Entry entryGe := ⟨fun a b => le_total b.monthSteps a.monthSteps⟩

instance : IsTrans Entry entryGe := ⟨fun _ _ _ h1 h2 => le_trans h2 h1⟩

/-- The placeholder row `("No users", 0, 0, 0, 0, 0, 0)` of
src/app/app.py line 300. -/
def noUsersEntry : Entry := ⟨"No users", 0, 0, 0, 0, 0, 0⟩

/-- The `leaderboard` handler's data (src/app/app.py lines 253-300): one
aggregate tuple per registered user in enumeration order, stably sorted
descending by monthly sum (Python's `list.sort` is stable; `insertionSort`
with the same total preorder produces the identical, unique stable order),
with the placeholder row when there are no users. -/
def leaderboard (users : List LUser) (store : Store) (today : Date) : List Entry :=
  let data := List.insertionSort entryGe (users.map (userEntry store today))
  if data.isEmpty then [noUsersEntry] else data

/-! ## Helper lemmas about the store operations -/

theorem upsertStep_cons_of_neg {uid : ℕ} {d : Date} {r : StepRec} (rest : Store) (n : ℤ)
    (h : keyMatch uid d r = false) :
    upsertStep (r :: rest) uid d n = r :: upsertStep rest uid d n := by
  unfold upsertStep
  rw [List.find?_cons_of_neg _ (by simp [h])]
  cases hf : rest.find? (keyMatch uid d) with
  | none => simp [updateFirst, h]
  | some s => simp [updateFirst, h]

theorem recordsFor_cons_of_neg {uid : ℕ} {d : Date} {r : StepRec} (rest : Store)
    (h : keyMatch uid d r = false) :
    recordsFor (r :: rest) uid d = recordsFor rest uid d := by
  simp [recordsFor, List.filter_cons, h]

theorem recordsFor_cons_of_pos {uid : ℕ} {d : Date} {r : StepRec} (rest : Store)
    (h : keyMatch uid d r = true) :
    recordsFor (r :: rest) uid d = r :: recordsFor rest uid d := by
  simp [recordsFor, List.filter_cons, h]

/-- After an upsert, the rows for the touched (user, date) pair carry exactly
the new count, provided the pair was not duplicated beforehand. -/
theorem recordsFor_upsertStep (store : Store) (uid : ℕ) (d : Date) (n : ℤ)
    (h : (recordsFor store uid d).length ≤ 1) :
    (recordsFor (upsertStep store uid d n) uid d).map (fun r => r.steps) = [n] := by
  induction store with
  | nil =>
      simp [upsertStep, recordsFor, List.find?, keyMatch]
  | cons r rest ih =>
      by_cases hr : keyMatch uid d r = true
      · have hfind : (r :: rest).find? (keyMatch uid d) = some r := List.find?_cons_of_pos _ hr
        have hrest : recordsFor rest uid d = [] := by
          have h2 := h
          rw [recordsFor_cons_of_pos rest hr] at h2
          simp only [List.length_cons] at h2
          exact List.eq_nil_of_length_eq_zero (by omega)
        have hkeep : keyMatch uid d { r with steps := n } = true := by
          simp only [keyMatch, decide_eq_true_eq] at hr ⊢
          exact hr
        unfold upsertStep
        rw [hfind]
        simp only [updateFirst, hr, if_true]
        rw [recordsFor_cons_of_pos rest hkeep, hrest]
        simp
      · have hr' : keyMatch uid d r = false := by simpa using hr
        rw [upsertStep_cons_of_neg rest n hr', recordsFor_cons_of_neg _ hr']
        apply ih
        rwa [recordsFor_cons_of_neg rest hr'] at h

/-- An upsert for one (user, date) pair leaves the rows of every other pair
untouched. -/
theorem recordsFor_upsertStep_other (store : Store) (uid : ℕ) (d : Date) (n : ℤ)
    (uid' : ℕ) (d' : Date) (hne : ¬ (uid' = uid ∧ d' = d)) :
    recordsFor (upsertStep store uid d n) uid' d' = recordsFor store uid' d' := by
  induction store with
  | nil =>
      have : keyMatch uid' d' (⟨uid, d, n⟩ : StepRec) = false := by
        simp only [keyMatch, decide_eq_false_iff_not]
        exact fun hc => hne ⟨hc.1.symm, hc.2.symm⟩
      simp [upsertStep, recordsFor, List.find?, this, List.filter_cons]
  | cons r rest ih =>
      by_cases hr : keyMatch uid d r = true
      · have hfind : (r :: rest).find? (keyMatch uid d) = some r := List.find?_cons_of_pos _ hr
        have hsame : keyMatch uid' d' { r with steps := n } = keyMatch uid' d' r := by
          simp only [keyMatch]
        unfold upsertStep
        rw [hfind]
        simp only [updateFirst, hr, if_true]
        by_cases hr' : keyMatch uid' d' r = true
        · rw [recordsFor_cons_of_pos rest (by rw [hsame]; exact hr'),
              recordsFor_cons_of_pos rest hr']
          -- the updated row matches the other key only if the keys coincide
          exfalso
          simp only [keyMatch, decide_eq_true_eq] at hr hr'
          exact hne ⟨hr'.1.symm.trans hr.1, hr'.2.symm.trans hr.2⟩
        · have hr'' : keyMatch uid' d' r = false := by simpa using hr'
          rw [recordsFor_cons_of_neg rest (by rw [hsame]; exact hr''),
              recordsFor_cons_of_neg rest hr'']
      · have hr' : keyMatch uid d r = false := by simpa using hr
        rw [upsertStep_cons_of_neg rest n hr']
        by_cases hm : keyMatch uid' d' r = true
        · rw [recordsFor_cons_of_pos _ hm, recordsFor_cons_of_pos rest hm, ih]
        · have hm' : keyMatch uid' d' r = false := by simpa using hm
          rw [recordsFor_cons_of_neg _ hm', recordsFor_cons_of_neg rest hm', ih]

/-- Upserting preserves the at-most-one-row-per-pair invariant. -/
theorem atMostOnePerKey_upsertStep (store : Store) (uid : ℕ) (d : Date) (n : ℤ)
    (h : atMostOnePerKey store) : atMostOnePerKey (upsertStep store uid d n) := by
  intro uid' d'
  by_cases hk : uid' = uid ∧ d' = d
  · obtain ⟨h1, h2⟩ := hk
    subst h1; subst h2
    have := recordsFor_upsertStep store uid' d' n (h uid' d')
    have hlen := congrArg List.length this
    simpa using Nat.le_of_eq hlen
  · rw [recordsFor_upsertStep_other store uid d n uid' d' hk]
    exact h uid' d'

/-! ## Further helper lemmas -/

/-- If the validation of lines 213-216 passes, the report handler performs
exactly the upsert of lines 218-232. -/
theorem reportPost_accepted (store : Store) (uid : ℕ) (today : Date) (n : ℤ) (d : Date)
    (hfut : ¬ Date.lt today d)
    (hout : ¬ (Date.lt d (september_start today.year) ∨ Date.lt (september_end today.year) d)) :
    reportPost uid today (some n) (some d) store = (.redirect, upsertStep store uid d n) := by
  simp [reportPost, hfut, hout]

/-- Every row present after an upsert either carries the upserted count or
was already in the store. -/
theorem steps_of_mem_upsertStep (store : Store) (uid : ℕ) (d : Date) (n : ℤ)
    (r : StepRec) (hr : r ∈ upsertStep store uid d n) :
    r.steps = n ∨ r ∈ store := by
  induction store with
  | nil =>
      simp only [upsertStep, List.find?, updateFirst, List.nil_append] at hr
      rw [List.mem_singleton] at hr
      exact Or.inl (by rw [hr])
  | cons s rest ih =>
      by_cases hs : keyMatch uid d s = true
      · have hfind : (s :: rest).find? (keyMatch uid d) = some s := List.find?_cons_of_pos _ hs
        unfold upsertStep at hr
        rw [hfind] at hr
        simp only [updateFirst, hs, if_true, List.mem_cons] at hr
        rcases hr with hr | hr
        · exact Or.inl (by rw [hr])
        · exact Or.inr (List.mem_cons_of_mem _ hr)
      · have hs' : keyMatch uid d s = false := by simpa using hs
        rw [upsertStep_cons_of_neg rest n hs'] at hr
        rcases List.mem_cons.mp hr with hr | hr
        · exact Or.inr (by rw [hr]; exact List.mem_cons_self _ _)
        · rcases ih hr with h | h
          · exact Or.inl h
          · exact Or.inr (List.mem_cons_of_mem _ h)

/-- Folding a non-empty sequence of upserts for one (user, date) pair keeps
the per-pair uniqueness invariant, and leaves exactly one row for the pair,
holding the last count of the sequence. -/
theorem foldl_upsertStep_spec (uid : ℕ) (d : Date) (counts : List ℤ) :
    ∀ store : Store, atMostOnePerKey store → counts ≠ [] →
      atMostOnePerKey (counts.foldl (fun st n => upsertStep st uid d n) store)
      ∧ (recordsFor (counts.foldl (fun st n => upsertStep st uid d n) store) uid d).map
          (fun r => r.steps) = counts.getLast?.toList := by
  induction counts with
  | nil => intro store _ hne; exact absurd rfl hne
  | cons a tail ih =>
      intro store h _
      cases tail with
      | nil =>
          simp only [List.foldl_cons, List.foldl_nil]
          refine ⟨atMostOnePerKey_upsertStep store uid d a h, ?_⟩
          rw [recordsFor_upsertStep store uid d a (h uid d)]
          rfl
      | cons b rest =>
          have h1 : atMostOnePerKey (upsertStep store uid d a) :=
            atMostOnePerKey_upsertStep store uid d a h
          have h2 := ih (upsertStep store uid d a) h1 (by simp)
          simp only [List.foldl_cons] at h2 ⊢
          exact ⟨h2.1, by rw [h2.2, List.getLast?_cons_cons]⟩

/-! ## Claims -/

/-- Claim C3: the report handler first rejects future dates with the
future-date message, then rejects dates outside the inclusive September
reporting period with the outside-period message, and otherwise accepts;
on either rejection the store is returned unchanged. -/
theorem C3_report_validation_order (store : Store) (uid : ℕ) (today : Date) (n : ℤ) (d : Date) :
    (Date.lt today d →
      reportPost uid today (some n) (some d) store = (.badRequest futureMsg, store))
    ∧ (¬ Date.lt today d →
        (Date.lt d (september_start today.year) ∨ Date.lt (september_end today.year) d) →
        reportPost uid today (some n) (some d) store = (.badRequest outsideMsg, store))
    ∧ (¬ Date.lt today d →
        ¬ (Date.lt d (september_start today.year) ∨ Date.lt (september_end today.year) d) →
        reportPost uid today (some n) (some d) store = (.redirect, upsertStep store uid d n)) := by
  refine ⟨fun h1 => by simp [reportPost, h1], fun h1 h2 => by simp [reportPost, h1, h2],
    fun h1 h2 => by simp [reportPost, h1, h2]⟩

/-- Claim C3, witnessed: a future date (which is also outside September) is
rejected as "future"; the day before September 1 is rejected as outside the
period; an in-period past date is accepted and upserted. In each case the
returned store is as stated. -/
theorem C3_witness :
    reportPost 1 ⟨2025, 9, 30⟩ (some 500) (some ⟨2025, 10, 1⟩) [] = (.badRequest futureMsg, [])
    ∧ reportPost 1 ⟨2025, 9, 10⟩ (some 500) (some ⟨2025, 8, 31⟩) [] = (.badRequest outsideMsg, [])
    ∧ reportPost 1 ⟨2025, 9, 10⟩ (some 500) (some ⟨2025, 9, 5⟩) [] =
        (.redirect, upsertStep [] 1 ⟨2025, 9, 5⟩ 500) :=
  ⟨(C3_report_validation_order [] 1 ⟨2025, 9, 30⟩ 500 ⟨2025, 10, 1⟩).1 (by decide),
   (C3_report_validation_order [] 1 ⟨2025, 9, 10⟩ 500 ⟨2025, 8, 31⟩).2.1 (by decide) (by decide),
   (C3_report_validation_order [] 1 ⟨2025, 9, 10⟩ 500 ⟨2025, 9, 5⟩).2.2 (by decide) (by decide)⟩

/-- Claim C4: starting from a store satisfying the at-most-one-row-per-
(user, date) invariant, any non-empty sequence of accepted submissions for
one (user, date) pair preserves the invariant and leaves exactly one row for
that pair, whose count is the most recently submitted one. -/
theorem C4_upsert_unique (store : Store) (uid : ℕ) (today : Date) (d : Date) (counts : List ℤ)
    (hinv : atMostOnePerKey store) (hne : counts ≠ [])
    (hfut : ¬ Date.lt today d)
    (hout : ¬ (Date.lt d (september_start today.year) ∨ Date.lt (september_end today.year) d)) :
    atMostOnePerKey
      (counts.foldl (fun st n => (reportPost uid today (some n) (some d) st).2) store)
    ∧ (recordsFor
        (counts.foldl (fun st n => (reportPost uid today (some n) (some d) st).2) store)
        uid d).map (fun r => r.steps) = counts.getLast?.toList := by
  have hfun : (fun st n => (reportPost uid today (some n) (some d) st).2) =
      fun st n => upsertStep st uid d n := by
    funext st n
    rw [reportPost_accepted st uid today n d hfut hout]
  rw [hfun]
  exact foldl_upsertStep_spec uid d counts store hinv hne

/-- Claim C4, witnessed: submitting 100 then 250 for the same user and date
into an empty store keeps the invariant and leaves one row with count 250. -/
theorem C4_witness :
    atMostOnePerKey
      ([100, 250].foldl
        (fun st n => (reportPost 1 ⟨2025, 9, 10⟩ (some n) (some ⟨2025, 9, 5⟩) st).2) [])
    ∧ (recordsFor
        ([100, 250].foldl
          (fun st n => (reportPost 1 ⟨2025, 9, 10⟩ (some n) (some ⟨2025, 9, 5⟩) st).2) [])
        1 ⟨2025, 9, 5⟩).map (fun r => r.steps) = ([100, 250] : List ℤ).getLast?.toList :=
  C4_upsert_unique [] 1 ⟨2025, 9, 10⟩ ⟨2025, 9, 5⟩ [100, 250]
    (fun uid d => by simp [recordsFor]) (by simp) (by decide) (by decide)

/-- Claim C9: when the steps field parses as an integer but the date field
does not parse as an ISO date, the handler answers 400 with the message
"Invalid number of steps" — the same `except ValueError` branch that handles
a non-integer steps field — and the store is unchanged. -/
theorem C9_bad_date_reuses_steps_error (store : Store) (uid : ℕ) (today : Date) (n : ℤ)
    (dOpt : Option Date) :
    reportPost uid today (some n) none store = (.badRequest invalidStepsMsg, store)
    ∧ reportPost uid today none dOpt store = (.badRequest invalidStepsMsg, store) :=
  ⟨rfl, rfl⟩

/-- Claim C10: a present but malformed `week_start` query parameter makes
`datetime.strptime` raise `ValueError`; the dashboard has no handler for it,
so the request errors out instead of being clamped or answered with a 400
validation response (an absent parameter, by contrast, is served). -/
theorem C10_malformed_week_start_raises (today : Date) :
    dashboardDates today (some none) = .error .valueError
    ∧ dashboardDates today none = .ok (dashboardWindow today none) :=
  ⟨rfl, rfl⟩

/-- Claim C7: with zero registered users the leaderboard is exactly the
single placeholder entry, named "No users" with all six numeric fields 0. -/
theorem C7_empty_leaderboard (store : Store) (today : Date) :
    leaderboard [] store today = [noUsersEntry]
    ∧ noUsersEntry.username = "No users"
    ∧ noUsersEntry.todaySteps = 0 ∧ noUsersEntry.dailyPercent = 0
    ∧ noUsersEntry.weekSteps = 0 ∧ noUsersEntry.weeklyPercent = 0
    ∧ noUsersEntry.monthSteps = 0 ∧ noUsersEntry.monthlyPercent = 0 :=
  ⟨rfl, rfl, rfl, rfl, rfl, rfl, rfl, rfl⟩

/-- September 30 is 29 days after September 1 on the ordinal scale. -/
theorem september_end_ordinal (y : ℕ) :
    toOrdinal (september_end y) = toOrdinal (september_start y) + 29 := by
  simp only [toOrdinal, september_start, september_end]

/-- Bounds of the resolved week window: it is at most 7 days wide and lies
inside the period, whenever the period is non-degenerate. -/
theorem resolveWeek_bounds (todayO s e : ℕ) (hse : s ≤ e) (req : Option ℕ) :
    (resolveWeek todayO s e req).1 ≤ (resolveWeek todayO s e req).2
    ∧ (resolveWeek todayO s e req).2 - (resolveWeek todayO s e req).1 ≤ 6
    ∧ s ≤ (resolveWeek todayO s e req).1
    ∧ (resolveWeek todayO s e req).2 ≤ e := by
  cases req <;> simp only [resolveWeek] <;> split_ifs <;>
    refine ⟨?_, ?_, ?_, ?_⟩ <;> omega

/-- The resolved default week start, in closed form: the Monday of the
current week, clamped into the period from both sides. -/
theorem resolveWeek_default (todayO s e : ℕ) (hse : s ≤ e) :
    (resolveWeek todayO s e none).1 = min (max (todayO - weekdayOrd todayO) s) e := by
  simp only [resolveWeek]
  split_ifs <;> omega

/-- The resolved week end, in closed form. -/
theorem resolveWeek_end (todayO s e : ℕ) (req : Option ℕ) :
    (resolveWeek todayO s e req).2 = min ((resolveWeek todayO s e req).1 + 6) e := rfl

/-- Claim C5 (amended): the dashboard week window is at most 7 days, lies
inside [September 1, September 30], and, with no requested start, the week
start is the current week's Monday clamped into the period from both sides
(not only forward to the period start), with
`week_end = min(week_start + 6, period_end)`. -/
theorem C5_week_window (today : Date) (req : Option ℕ) :
    (dashboardWindow today req).1 ≤ (dashboardWindow today req).2
    ∧ (dashboardWindow today req).2 - (dashboardWindow today req).1 ≤ 6
    ∧ toOrdinal (september_start today.year) ≤ (dashboardWindow today req).1
    ∧ (dashboardWindow today req).2 ≤ toOrdinal (september_end today.year)
    ∧ (req = none →
        (dashboardWindow today req).1 =
          min (max (toOrdinal today - weekdayOrd (toOrdinal today))
                (toOrdinal (september_start today.year)))
            (toOrdinal (september_end today.year))
        ∧ (dashboardWindow today req).2 =
            min ((dashboardWindow today req).1 + 6)
              (toOrdinal (september_end today.year))) := by
  have hse : toOrdinal (september_start today.year) ≤ toOrdinal (september_end today.year) := by
    rw [september_end_ordinal]; omega
  obtain ⟨h1, h2, h3, h4⟩ := resolveWeek_bounds (toOrdinal today) _ _ hse req
  refine ⟨h1, h2, h3, h4, ?_⟩
  rintro rfl
  exact ⟨resolveWeek_default (toOrdinal today) _ _ hse, resolveWeek_end (toOrdinal today) _ _ none⟩

/-- Claim C5, witnessed: for today = 2025-09-10 with no requested start the
window invariants hold and the default formulas give the window
(739502, 739508) = (2025-09-08, 2025-09-14). -/
theorem C5_witness :
    ((dashboardWindow ⟨2025, 9, 10⟩ none).1 =
        min (max (toOrdinal ⟨2025, 9, 10⟩ - weekdayOrd (toOrdinal ⟨2025, 9, 10⟩))
              (toOrdinal (september_start 2025)))
          (toOrdinal (september_end 2025))
      ∧ (dashboardWindow ⟨2025, 9, 10⟩ none).2 =
          min ((dashboardWindow ⟨2025, 9, 10⟩ none).1 + 6)
            (toOrdinal (september_end 2025)))
    ∧ dashboardWindow ⟨2025, 9, 10⟩ none = (739502, 739508) :=
  ⟨(C5_week_window ⟨2025, 9, 10⟩ none).2.2.2.2 rfl, by decide⟩

/-- Claim C5, counterexample to the claim as stated: for today = 2025-10-06
(a Monday after the period) and no requested start, the dashboard week start
is September 30 (clamped backward to the period end), not the claimed
"Monday of the current week clamped forward to periodStart", which would be
October 6. -/
theorem C5_counterexample :
    (dashboardWindow ⟨2025, 10, 6⟩ none).1 ≠
      max (toOrdinal ⟨2025, 10, 6⟩ - weekdayOrd (toOrdinal ⟨2025, 10, 6⟩))
        (toOrdinal (september_start 2025)) := by decide

/-- Claim C2, counterexample to the claim as stated: for today = 2025-02-10
the dashboard's monthly divisor is the fixed constant 450000, but
15000 × days-in-month(February 2025) = 420000, so the dashboard's monthly
goal does not track the day count of the active month. -/
theorem C2_counterexample :
    ¬ (dashboardMonthlyGoal =
        daily_goal * daysInMonth (Date.mk 2025 2 10).year (Date.mk 2025 2 10).month
      ∧ monthly_goal ⟨2025, 2, 10⟩ =
          daily_goal * daysInMonth (Date.mk 2025 2 10).year (Date.mk 2025 2 10).month) := by
  decide

/-- Claim C2 (amended): the leaderboard's monthly goal is
15000 × days-in-month(today's month) — a value between 15000 × 28 and
15000 × 31 — as the claim states; the dashboard instead divides by the fixed
constant 450000 = 15000 × 30, which is 15000 × the day count of its fixed
September window but does not vary with today's month. -/
theorem C2_monthly_goal (today : Date) :
    monthly_goal today = daily_goal * daysInMonth today.year today.month
    ∧ dashboardMonthlyGoal = daily_goal * daysInMonth today.year 9
    ∧ 28 ≤ daysInMonth today.year today.month
    ∧ daysInMonth today.year today.month ≤ 31 := by
  refine ⟨rfl, ?_, ?_, ?_⟩
  · show (450000 : ℕ) = 15000 * daysInMonth today.year 9
    norm_num [daysInMonth]
  · unfold daysInMonth
    split_ifs <;> omega
  · unfold daysInMonth
    split_ifs <;> omega

/-- Inserting an entry into a list keeps, among the entries of any one
monthly sum, the inserted entry first (when it has that sum) and the
existing order otherwise: every entry the insertion skips over has a
strictly larger monthly sum. -/
theorem filter_orderedInsert_key (k : ℤ) (a : Entry) (l : List Entry) :
    (List.orderedInsert entryGe a l).filter (fun x => decide (x.monthSteps = k)) =
      if a.monthSteps = k then a :: l.filter (fun x => decide (x.monthSteps = k))
      else l.filter (fun x => decide (x.monthSteps = k)) := by
  induction l with
  | nil =>
      simp only [List.orderedInsert]
      by_cases ha : a.monthSteps = k <;> simp [ha]
  | cons b l ih =>
      simp only [List.orderedInsert]
      by_cases hab : entryGe a b
      · rw [if_pos hab]
        by_cases ha : a.monthSteps = k <;> simp [List.filter_cons, ha]
      · rw [if_neg hab]
        have hlt : a.monthSteps < b.monthSteps := by
          simpa [entryGe, not_le] using hab
        by_cases ha : a.monthSteps = k
        · have hbk : ¬ b.monthSteps = k := by omega
          simp [List.filter_cons, hbk, ih, ha]
        · by_cases hb : b.monthSteps = k <;> simp [List.filter_cons, hb, ih, ha]

/-- The stable sort does not reorder entries of equal monthly sums: for each
sum, filtering the sorted list gives the filter of the input list. -/
theorem filter_insertionSort_key (k : ℤ) (l : List Entry) :
    (List.insertionSort entryGe l).filter (fun x => decide (x.monthSteps = k)) =
      l.filter (fun x => decide (x.monthSteps = k)) := by
  induction l with
  | nil => rfl
  | cons a l ih =>
      simp only [List.insertionSort]
      rw [filter_orderedInsert_key]
      by_cases ha : a.monthSteps = k <;> simp [List.filter_cons, ha, ih]

/-- Claim C6: the leaderboard is sorted descending by monthly step sum
(every later entry has a monthly sum ≤ every earlier one, so in particular
adjacent ones), and, when there is at least one user, the entries of any
fixed monthly sum appear exactly in user-enumeration order (stable
tie-breaking, no secondary key). -/
theorem C6_leaderboard_sorted_stable (users : List LUser) (store : Store) (today : Date) :
    List.Pairwise (fun a b => b.monthSteps ≤ a.monthSteps) (leaderboard users store today)
    ∧ (users ≠ [] → ∀ k : ℤ,
        (leaderboard users store today).filter (fun x => decide (x.monthSteps = k)) =
          (users.map (userEntry store today)).filter (fun x => decide (x.monthSteps = k))) := by
  constructor
  · unfold leaderboard
    by_cases hemp : (List.insertionSort entryGe (users.map (userEntry store today))).isEmpty
    · simp [hemp]
    · simp only [hemp, Bool.false_eq_true, if_false]
      exact List.sorted_insertionSort entryGe (users.map (userEntry store today))
  · intro hne k
    unfold leaderboard
    have hdata : ¬ (List.insertionSort entryGe (users.map (userEntry store today))).isEmpty = true := by
      rw [List.isEmpty_iff]
      intro hnil
      have hperm := List.perm_insertionSort entryGe (users.map (userEntry store today))
      rw [hnil] at hperm
      have hmapnil : users.map (userEntry store today) = [] := hperm.symm.eq_nil
      exact hne (List.map_eq_nil_iff.mp hmapnil)
    simp only [hdata, if_false]
    exact filter_insertionSort_key k (users.map (userEntry store today))

/-- Claim C6, witnessed on the spec's tie scenario: two users with equal
monthly sums 5000 keep their enumeration order among the sum-5000 entries of
the leaderboard. -/
theorem C6_witness :
    (leaderboard [⟨1, "a"⟩, ⟨2, "b"⟩]
        [⟨1, ⟨2025, 9, 3⟩, 5000⟩, ⟨2, ⟨2025, 9, 4⟩, 5000⟩] ⟨2025, 9, 10⟩).filter
      (fun x => decide (x.monthSteps = 5000)) =
    ([⟨1, "a"⟩, ⟨2, "b"⟩].map
        (userEntry [⟨1, ⟨2025, 9, 3⟩, 5000⟩, ⟨2, ⟨2025, 9, 4⟩, 5000⟩] ⟨2025, 9, 10⟩)).filter
      (fun x => decide (x.monthSteps = 5000)) :=
  (C6_leaderboard_sorted_stable [⟨1, "a"⟩, ⟨2, "b"⟩]
    [⟨1, ⟨2025, 9, 3⟩, 5000⟩, ⟨2, ⟨2025, 9, 4⟩, 5000⟩] ⟨2025, 9, 10⟩).2 (by simp) 5000

/-- The fuel-driven base-2 logarithm agrees with `Nat.log2` once the fuel
covers the argument. -/
theorem log2fuel_eq (fuel n : ℕ) (h : n ≤ fuel) : log2fuel fuel n = Nat.log2 n := by
  induction fuel generalizing n with
  | zero =>
      have hn : n = 0 := by omega
      subst hn
      rw [Nat.log2]
      simp [log2fuel]
  | succ f ih =>
      have hdef : log2fuel (f + 1) n = if n ≤ 1 then 0 else log2fuel f (n / 2) + 1 := rfl
      rw [hdef, Nat.log2]
      by_cases h2 : n ≤ 1
      · rw [if_pos h2, if_neg (by omega)]
      · rw [if_neg h2, if_pos (by omega), ih (n / 2) (by omega)]

/-- Lower bit-length bound: `2 ^ natLog2F n ≤ n` for `n ≥ 1`. -/
theorem natLog2F_le (n : ℕ) (h : 1 ≤ n) : 2 ^ natLog2F n ≤ n := by
  rw [natLog2F, log2fuel_eq n n le_rfl]
  exact Nat.log2_self_le (by omega)

/-- Upper bit-length bound: `n < 2 ^ (natLog2F n + 1)`. -/
theorem natLog2F_lt (n : ℕ) : n < 2 ^ (natLog2F n + 1) := by
  rw [natLog2F, log2fuel_eq n n le_rfl]
  exact Nat.lt_log2_self

/-- For `b < a` the floor base-2 logarithm of `a / b` is non-negative and
its power of two, times `b`, is at most `a`. -/
theorem flog2_nonneg_lower (a b : ℕ) (hb : 0 < b) (hab : b < a) :
    0 ≤ flog2 a b ∧ 2 ^ (flog2 a b).toNat * b ≤ a := by
  have ha : 1 ≤ a := by omega
  have h1 : 2 ^ natLog2F a ≤ a := natLog2F_le a ha
  have h2 : a < 2 ^ (natLog2F a + 1) := natLog2F_lt a
  have h3 : 2 ^ natLog2F b ≤ b := natLog2F_le b hb
  have h4 : b < 2 ^ (natLog2F b + 1) := natLog2F_lt b
  have hLbLa : natLog2F b ≤ natLog2F a := by
    have hlt : (2:ℕ) ^ natLog2F b < 2 ^ (natLog2F a + 1) :=
      lt_of_le_of_lt (le_trans h3 (le_of_lt hab)) h2
    have := (Nat.pow_lt_pow_iff_right (by norm_num : (1:ℕ) < 2)).mp hlt
    omega
  unfold flog2
  by_cases hc : pow2timesLe ((natLog2F a : ℤ) - (natLog2F b : ℤ)) b a = true
  · rw [if_pos hc]
    refine ⟨by omega, ?_⟩
    unfold pow2timesLe at hc
    rw [if_pos (by omega : (0:ℤ) ≤ (natLog2F a : ℤ) - (natLog2F b : ℤ))] at hc
    exact of_decide_eq_true hc
  · rw [if_neg hc]
    have hne : natLog2F b < natLog2F a := by
      rcases Nat.lt_or_ge (natLog2F b) (natLog2F a) with h | h
      · exact h
      · exfalso
        apply hc
        have hEq : natLog2F a = natLog2F b := by omega
        unfold pow2timesLe
        rw [if_pos (by omega)]
        apply decide_eq_true
        have h0 : (((natLog2F a : ℤ)) - (natLog2F b : ℤ)).toNat = 0 := by omega
        rw [h0]
        simpa using le_of_lt hab
    refine ⟨by omega, ?_⟩
    have htn : (((natLog2F a : ℤ)) - (natLog2F b : ℤ) - 1).toNat =
        natLog2F a - natLog2F b - 1 := by omega
    rw [htn]
    have hlt : 2 ^ (natLog2F a - natLog2F b - 1) * b < 2 ^ natLog2F a := by
      calc 2 ^ (natLog2F a - natLog2F b - 1) * b
          < 2 ^ (natLog2F a - natLog2F b - 1) * 2 ^ (natLog2F b + 1) := by
            exact (Nat.mul_lt_mul_left (Nat.pos_pow_of_pos _ (by norm_num))).mpr h4
        _ = 2 ^ natLog2F a := by
            rw [← pow_add]
            congr 1
            omega
    omega

/-- Rounding half-to-even never rounds below the floor of the quotient. -/
theorem rnheDiv_ge_div (A B : ℕ) : A / B ≤ rnheDiv A B := by
  unfold rnheDiv
  split_ifs <;> omega

/-- Transfer a cross-multiplied lower bound through `rnheDiv`. -/
theorem rnheDiv_ge_of_le (A B T : ℕ) (hB : 0 < B) (h : T * B ≤ A) : T ≤ rnheDiv A B :=
  le_trans ((Nat.le_div_iff_mul_le hB).mpr h) (rnheDiv_ge_div A B)

/-- If `2 ^ L ≤ a / b` then the significand obtained by rounding
`(a / b) * 2 ^ (52 - L)` is at least `2 ^ 52`. -/
theorem scaled_round_ge_pow52 (a b : ℕ) (L : ℤ) (hb : 0 < b) (hL : 0 ≤ L)
    (hlow : 2 ^ L.toNat * b ≤ a) :
    2 ^ 52 ≤ rnheDiv (scaledNumDen a b (52 - L)).1 (scaledNumDen a b (52 - L)).2 := by
  unfold scaledNumDen
  by_cases h52 : (0:ℤ) ≤ 52 - L
  · rw [if_pos h52]
    apply rnheDiv_ge_of_le _ _ _ hb
    have he : L.toNat + ((52:ℤ) - L).toNat = 52 := by omega
    calc 2 ^ 52 * b = 2 ^ (L.toNat + ((52:ℤ) - L).toNat) * b := by rw [he]
      _ = (2 ^ L.toNat * b) * 2 ^ ((52:ℤ) - L).toNat := by rw [pow_add]; ring
      _ ≤ a * 2 ^ ((52:ℤ) - L).toNat := Nat.mul_le_mul_right _ hlow
  · rw [if_neg h52]
    apply rnheDiv_ge_of_le _ _ _ (Nat.mul_pos hb (Nat.pos_pow_of_pos _ (by norm_num)))
    have he : 52 + (-((52:ℤ) - L)).toNat = L.toNat := by omega
    calc 2 ^ 52 * (b * 2 ^ (-((52:ℤ) - L)).toNat)
        = 2 ^ (52 + (-((52:ℤ) - L)).toNat) * b := by rw [pow_add]; ring
      _ = 2 ^ L.toNat * b := by rw [he]
      _ ≤ a := hlow

/-- For a sum strictly above the goal, the rounded quotient has a full
significand and a non-negative exponent (its value is at least 1). -/
theorem roundDivN_m_ge (s g : ℕ) (hg : 0 < g) (h : g < s) :
    2 ^ 52 ≤ (roundDivN s g).m ∧ 0 ≤ (roundDivN s g).e := by
  obtain ⟨he, hlow⟩ := flog2_nonneg_lower s g hg h
  have hs : ¬ s = 0 := by omega
  unfold roundDivN
  rw [if_neg hs]
  exact ⟨scaled_round_ge_pow52 s g (flog2 s g) hg he hlow, he⟩

/-- Multiplying a double of value at least 1 by 100 and truncating gives at
least 100: the rounding cannot cross the representable value 100. -/
theorem truncF_mul100_ge_100 (f : PFloat) (hm : 2 ^ 52 ≤ f.m) (he : 0 ≤ f.e) :
    100 ≤ truncF (mul100 f) := by
  have hpow52 : (0:ℕ) < 2 ^ 52 := Nat.pos_pow_of_pos _ (by norm_num)
  have hne : ¬ f.m = 0 := by omega
  obtain ⟨hc0, hclow⟩ := flog2_nonneg_lower (100 * f.m) 1 (by norm_num) (by omega)
  rw [mul_one] at hclow
  unfold mul100 truncF
  rw [if_neg hne]
  simp only []
  by_cases hE : (52:ℤ) ≤ flog2 (100 * f.m) 1 + f.e - 52
  · rw [if_pos hE]
    have hm' : 2 ^ 52 ≤ rnheDiv (scaledNumDen (100 * f.m) 1 (52 - flog2 (100 * f.m) 1)).1
        (scaledNumDen (100 * f.m) 1 (52 - flog2 (100 * f.m) 1)).2 :=
      scaled_round_ge_pow52 (100 * f.m) 1 (flog2 (100 * f.m) 1) (by norm_num) hc0
        (by omega)
    calc (100:ℕ) ≤ 2 ^ 52 := by norm_num
      _ ≤ rnheDiv _ _ := hm'
      _ ≤ rnheDiv _ _ * 2 ^ (flog2 (100 * f.m) 1 + f.e - 52 - 52).toNat :=
          Nat.le_mul_of_pos_right _ (Nat.pos_pow_of_pos _ (by norm_num))
  · rw [if_neg hE]
    rw [Nat.le_div_iff_mul_le (Nat.pos_pow_of_pos _ (by norm_num))]
    set c := flog2 (100 * f.m) 1 with hcdef
    -- target: 100 * 2 ^ (52 - (c + f.e - 52)).toNat ≤ rounded significand
    unfold scaledNumDen
    by_cases h52 : (0:ℤ) ≤ 52 - c
    · rw [if_pos h52]
      apply rnheDiv_ge_of_le _ _ _ (by norm_num)
      rw [mul_one]
      have hK : ((52:ℤ) - (c + f.e - 52)).toNat ≤ 52 + ((52:ℤ) - c).toNat := by omega
      calc 100 * 2 ^ ((52:ℤ) - (c + f.e - 52)).toNat
          ≤ 100 * 2 ^ (52 + ((52:ℤ) - c).toNat) :=
            Nat.mul_le_mul_left _ (Nat.pow_le_pow_right (by norm_num) hK)
        _ = 100 * (2 ^ 52 * 2 ^ ((52:ℤ) - c).toNat) := by rw [pow_add]
        _ ≤ 100 * (f.m * 2 ^ ((52:ℤ) - c).toNat) :=
            Nat.mul_le_mul_left _ (Nat.mul_le_mul_right _ hm)
        _ = 100 * f.m * 2 ^ ((52:ℤ) - c).toNat := by ring
    · rw [if_neg h52]
      show 100 * 2 ^ ((52:ℤ) - (c + f.e - 52)).toNat ≤
        rnheDiv (100 * f.m) (1 * 2 ^ (-((52:ℤ) - c)).toNat)
      rw [one_mul]
      apply rnheDiv_ge_of_le _ _ _ (Nat.pos_pow_of_pos _ (by norm_num))
      have hKD : ((52:ℤ) - (c + f.e - 52)).toNat + (-((52:ℤ) - c)).toNat ≤ 52 := by omega
      calc 100 * 2 ^ ((52:ℤ) - (c + f.e - 52)).toNat * 2 ^ (-((52:ℤ) - c)).toNat
          = 100 * 2 ^ (((52:ℤ) - (c + f.e - 52)).toNat + (-((52:ℤ) - c)).toNat) := by
            rw [pow_add]; ring
        _ ≤ 100 * 2 ^ 52 := Nat.mul_le_mul_left _ (Nat.pow_le_pow_right (by norm_num) hKD)
        _ ≤ 100 * f.m := Nat.mul_le_mul_left _ hm

/-- When the sum strictly exceeds the goal, the computed percent is exactly
100: the clamp takes over. -/
theorem pctCore_eq_100 (s g : ℕ) (hg : 0 < g) (h : g < s) : pctCore s g = 100 := by
  obtain ⟨hm, he⟩ := roundDivN_m_ge s g hg h
  have h100 := truncF_mul100_ge_100 (roundDivN s g) hm he
  unfold pctCore
  omega

/-- Claim C1 (amended): for every non-negative sum and positive goal the
computed percent lies in [0, 100] and equals exactly 100 whenever the sum
exceeds the goal. -/
theorem C1_percent_clamped (s : ℤ) (g : ℕ) (hs : 0 ≤ s) (hg : 0 < g) :
    0 ≤ computedPercent s g ∧ computedPercent s g ≤ 100
    ∧ ((g : ℤ) < s → computedPercent s g = 100) := by
  unfold computedPercent
  rw [if_pos hs]
  refine ⟨Int.ofNat_nonneg _, ?_, ?_⟩
  · have hle : pctCore s.toNat g ≤ 100 := by
      unfold pctCore
      exact min_le_right _ _
    exact_mod_cast hle
  · intro hlt
    have hlt' : g < s.toNat := by omega
    rw [pctCore_eq_100 s.toNat g hg hlt']
    rfl

/-- Claim C1, witnessed on the spec's scenario: 20000 steps against the
15000 goal give exactly 100 percent, clamped. -/
theorem C1_witness :
    (0 ≤ computedPercent 20000 15000 ∧ computedPercent 20000 15000 ≤ 100
      ∧ ((15000 : ℤ) < 20000 → computedPercent 20000 15000 = 100))
    ∧ computedPercent 20000 15000 = 100 :=
  ⟨C1_percent_clamped 20000 15000 (by decide) (by decide), by decide⟩

/-- Claim C1, counterexample to the claim as stated: for the reachable sum
4350 against the daily goal 15000 the code computes
`int(4350 / 15000 * 100)` in binary64 arithmetic; `4350 / 15000` rounds to
slightly below 0.29, its product with 100 rounds to 28.999999999999996, and
truncation gives 28 — whereas `floor(min(4350 / 15000, 1) * 100) = 29`.  So
the computed percent does not always equal the spec's exact-arithmetic
formula. -/
theorem C1_counterexample :
    daily_percent 4350 ≠ specPercentOfGoal 4350 15000
    ∧ daily_percent 4350 = 28 ∧ specPercentOfGoal 4350 15000 = 29 := by
  have h29 : specPercentOfGoal 4350 15000 = 29 := by
    unfold specPercentOfGoal
    rw [min_eq_left (by norm_num : ((4350 : ℤ) : ℚ) / ((15000 : ℕ) : ℚ) ≤ 1)]
    rw [show ((4350 : ℤ) : ℚ) / ((15000 : ℕ) : ℚ) * 100 = ((29 : ℤ) : ℚ) by norm_num]
    exact Int.floor_intCast 29
  have h28 : daily_percent 4350 = 28 := by decide
  exact ⟨by rw [h28, h29]; decide, h28, h29⟩

/-- Claim C8, counterexample to the claim as stated: submitting -500 steps
for an in-period past date is accepted and stored as is, so the store then
contains a record with a negative count. -/
theorem C8_counterexample :
    (reportPost 1 ⟨2025, 9, 10⟩ (some (-500)) (some ⟨2025, 9, 5⟩) []).1 = ReportResult.redirect
    ∧ ((reportPost 1 ⟨2025, 9, 10⟩ (some (-500)) (some ⟨2025, 9, 5⟩) []).2.all
        (fun r => decide (0 ≤ r.steps))) = false := by decide

/-- Claim C8 (amended): the report operation stores the submitted count
verbatim; it never invents negative counts, so when every submitted count is
non-negative every stored count stays non-negative — but it does not enforce
non-negativity itself (see the counterexample). -/
theorem C8_nonneg_preserved (store : Store) (uid : ℕ) (today : Date) (n : ℤ) (d : Date)
    (hn : 0 ≤ n) (hstore : ∀ r ∈ store, 0 ≤ r.steps) :
    ∀ r ∈ (reportPost uid today (some n) (some d) store).2, 0 ≤ r.steps := by
  intro r hr
  simp only [reportPost] at hr
  by_cases h1 : Date.lt today d
  · rw [if_pos h1] at hr
    exact hstore r hr
  · rw [if_neg h1] at hr
    by_cases h2 : Date.lt d (september_start today.year) ∨ Date.lt (september_end today.year) d
    · rw [if_pos h2] at hr
      exact hstore r hr
    · rw [if_neg h2] at hr
      rcases steps_of_mem_upsertStep store uid d n r hr with h | h
      · omega
      · exact hstore r h

/-- Claim C8, witnessed: a non-negative submission into a store of
non-negative counts leaves every stored count non-negative. -/
theorem C8_witness :
    0 ≤ (500 : ℤ)
    ∧ ∀ r ∈ (reportPost 1 ⟨2025, 9, 10⟩ (some 500) (some ⟨2025, 9, 5⟩)
        [⟨1, ⟨2025, 9, 4⟩, 700⟩]).2, 0 ≤ r.steps :=
  ⟨by decide,
    C8_nonneg_preserved [⟨1, ⟨2025, 9, 4⟩, 700⟩] 1 ⟨2025, 9, 10⟩ 500 ⟨2025, 9, 5⟩ (by decide)
      (by intro r hr; simp at hr; rw [hr]; decide)⟩
